import Mathlib

/-!
Verification of the zip-code record store (buffer.h / buffer.cpp / main.cpp).

Shallow embedding notes:
- Files are modeled as values: a binary file is a `List Nat` of byte values,
  a text file is a `List Char`.  A file that cannot be opened is modeled by
  passing `none` for its contents.
- The C++ `double` fields (latitude, longitude) are modeled as exact decimal
  values `DoubleVal` (mantissa times a power of ten, kept in a normal form so
  that structural equality is value equality).  `std::stod` and stream output
  of a double (six significant digits, printf %g style) are modeled on these
  exact decimals; IEEE binary rounding is outside the model.
- C++ strings are byte strings; record fields here are Lean `String`s whose
  characters stand for single bytes (all concrete inputs are ASCII).
- Reading past end of file on a truncated store is undefined behavior in the
  C++ (flagged in the design notes); the embedding gives such reads a total
  but harmless meaning, and every theorem below constrains itself to stores
  produced by the writer.
-/

set_option maxHeartbeats 1600000

/-! ## Byte and character utilities -/

/-- Bytes of a string, one byte per character (fields are ASCII in practice). -/
def strBytes (s : String) : List Nat := s.data.map Char.toNat

/-- View a list of byte values as characters. -/
def bytesToChars (bs : List Nat) : List Char := bs.map Char.ofNat

/-- Little-endian encoding of `v` in `w` bytes, as written by
`outputFile.write(reinterpret_cast<const char*>(&v), w)` on x86. -/
def toLE : Nat → Nat → List Nat
  | 0, _ => []
  | w + 1, v => (v % 256) :: toLE w (v / 256)

/-- Little-endian decoding, as read by `inputFile.read(...)` on x86. -/
def fromLE : List Nat → Nat
  | [] => 0
  | b :: bs => b + 256 * fromLE bs

/-- Splitting a character list at commas, the semantics of repeated
`std::getline(ss, field, ',')`: a field that is never reached stays empty,
which `fieldAt` models with the default `[]`. -/
def splitComma : List Char → List (List Char)
  | [] => [[]]
  | c :: cs =>
    if c = ',' then [] :: splitComma cs
    else
      match splitComma cs with
      | [] => [[c]]
      | t :: ts => (c :: t) :: ts

/-- Field `i` of a split line; `[]` when the line has fewer fields, matching
a failed `getline` that leaves the target string empty. -/
def fieldAt (fields : List (List Char)) (i : Nat) : List Char := fields.getD i []

/-- C locale `isspace`, used by `operator>>` skipping and by `strtod`. -/
def isStreamSpace (c : Char) : Bool := c.toNat = 32 || (9 ≤ c.toNat && c.toNat ≤ 13)

/-- C locale `isdigit`. -/
def isDigitCh (c : Char) : Bool := 48 ≤ c.toNat && c.toNat ≤ 57

/-- Numeric value of a digit character. -/
def digitVal (c : Char) : Nat := c.toNat - 48

/-- Value of a list of decimal digit characters, most significant first. -/
def digitsToNat (ds : List Char) : Nat := ds.foldl (fun a c => a * 10 + digitVal c) 0

/-- Character of a decimal digit. -/
def digitChar (d : Nat) : Char := Char.ofNat (48 + d)

/-- Decimal digit characters of `n`, fuel-driven so that the kernel can
evaluate it; models integer output of `operator<<`. -/
def natToCharsAux : Nat → Nat → List Char
  | 0, _ => []
  | fuel + 1, n => if n = 0 then [] else natToCharsAux fuel (n / 10) ++ [digitChar (n % 10)]

/-- Decimal representation of `n`, as printed by `operator<<`. -/
def natToChars (n : Nat) : List Char :=
  if n = 0 then ['0'] else natToCharsAux (n + 1) n

/-! ## Exact-decimal model of the double fields -/

/-- Exact decimal stand-in for the C++ `double` fields: the value
`mantissa * 10 ^ exponent`, kept normalized (mantissa not divisible by ten,
and `0` is represented as mantissa `0`, exponent `0`) so that structural
equality coincides with value equality. -/
structure DoubleVal where
  mantissa : Int
  exponent : Int
deriving DecidableEq, Repr

/-- Build a normalized `DoubleVal` from a sign, significand digit characters
and a decimal exponent. -/
def mkDoubleVal (sign : Int) (ds : List Char) (expo : Int) : DoubleVal :=
  let stripped := (ds.reverse.dropWhile (fun c => c = '0')).reverse
  let k := ds.length - stripped.length
  if stripped.isEmpty then ⟨0, 0⟩
  else ⟨sign * (digitsToNat stripped : Int), expo + k⟩

/-- Sign character handling shared by `strtod` and `operator>>`. -/
def parseSignChars (cs : List Char) : Int × List Char :=
  match cs with
  | [] => (1, [])
  | c :: t => if c = '+' then (1, t) else if c = '-' then (-1, t) else (1, c :: t)

/-- Exponent suffix of a `strtod` subject sequence; a malformed exponent is
ignored, contributing zero. -/
def parseExpoPart (cs : List Char) : Int :=
  match cs with
  | [] => 0
  | c :: t =>
    if c = 'e' ∨ c = 'E' then
      let (es, t2) := parseSignChars t
      let ds := t2.takeWhile isDigitCh
      if ds.isEmpty then 0 else es * (digitsToNat ds : Int)
    else 0

/-- Model of `std::stod` on a character list: leading whitespace, optional
sign, decimal digits with optional fraction and exponent, longest valid
prefix; `none` models the `std::invalid_argument` throw when no conversion
can be performed.  Hexadecimal, infinity and NaN subject sequences are
outside the modeled input range. -/
def stodChars (cs : List Char) : Option DoubleVal :=
  let cs1 := cs.dropWhile isStreamSpace
  let (sign, cs2) := parseSignChars cs1
  let d1 := cs2.takeWhile isDigitCh
  let cs3 := cs2.dropWhile isDigitCh
  let (d2, cs5) :=
    match cs3 with
    | [] => ([], [])
    | c :: cs4 =>
      if c = '.' then (cs4.takeWhile isDigitCh, cs4.dropWhile isDigitCh) else ([], cs3)
  if d1.isEmpty && d2.isEmpty then none
  else some (mkDoubleVal sign (d1 ++ d2) (parseExpoPart cs5 - d2.length))

/-- Model of `std::stod` on a string. -/
def stod (s : String) : Option DoubleVal := stodChars s.data

/-- Exponent digits of the scientific form, at least two digits wide. -/
def padExpo (n : Nat) : List Char := if n < 10 then '0' :: natToChars n else natToChars n

/-- Model of `oss << d` for a double: default precision six significant
digits, printf %g style (fixed form for decimal exponents in [-4, 6), else
scientific), trailing zeros stripped.  Rounding at the seventh digit is
round-half-to-even; an exact decimal tie never arises from an IEEE double. -/
def formatDoubleChars (d : DoubleVal) : List Char :=
  if d.mantissa = 0 then ['0']
  else
    let m := d.mantissa.natAbs
    let ds := natToChars m
    let c := ds.length
    let (sig0, bump) :=
      if c ≤ 6 then (ds, (0 : Int))
      else
        let p := 10 ^ (c - 6)
        let q := m / p
        let r := m % p
        let half := 5 * 10 ^ (c - 7)
        let q1 :=
          if half < r then q + 1
          else if r < half then q
          else if q % 2 = 0 then q else q + 1
        if q1 = 10 ^ 6 then (natToChars (10 ^ 5), 1) else (natToChars q1, 0)
    let sig := (sig0.reverse.dropWhile (fun ch => ch = '0')).reverse
    let e : Int := (c : Int) - 1 + d.exponent + bump
    let body :=
      if -4 ≤ e ∧ e < 6 then
        if 0 ≤ e then
          let intLen := e.toNat + 1
          if sig.length ≤ intLen then sig ++ List.replicate (intLen - sig.length) '0'
          else sig.take intLen ++ '.' :: sig.drop intLen
        else '0' :: '.' :: List.replicate (e.natAbs - 1) '0' ++ sig
      else
        sig.take 1 ++ (if sig.drop 1 = [] then [] else '.' :: sig.drop 1)
          ++ 'e' :: (if e < 0 then '-' else '+') :: padExpo e.natAbs
    (if d.mantissa < 0 then ['-'] else []) ++ body

/-- String form of `formatDoubleChars`. -/
def formatDouble (d : DoubleVal) : String := String.mk (formatDoubleChars d)

/-! ## Record type and codec (buffer.h, buffer.cpp) -/

/-- The record struct of buffer.h with the doubles replaced by their
exact-decimal model. -/
structure ZipCodeRecord where
  zipCode : String
  placeName : String
  state : String
  county : String
  latitude : DoubleVal
  longitude : DoubleVal
deriving DecidableEq, Repr

/-- Record encoding of `convertToLengthIndicatedFile`: the six fields joined
by commas, no trailing terminator. -/
def encodeRecord (r : ZipCodeRecord) : String :=
  r.zipCode ++ "," ++ r.placeName ++ "," ++ r.state ++ "," ++ r.county ++ ","
    ++ formatDouble r.latitude ++ "," ++ formatDouble r.longitude

/-- Record decoding used by `loadFromLengthIndicatedFile` and
`readRecordAtOffset`: positional comma split, then `stod` on both numeric
fields with no empty-field default; a failed `stod` drops the record. -/
def decodeRecordChars (cs : List Char) : Option ZipCodeRecord :=
  let fs := splitComma cs
  match stodChars (fieldAt fs 4), stodChars (fieldAt fs 5) with
  | some la, some lo =>
    some ⟨String.mk (fieldAt fs 0), String.mk (fieldAt fs 1), String.mk (fieldAt fs 2),
      String.mk (fieldAt fs 3), la, lo⟩
  | _, _ => none

/-- String form of `decodeRecordChars`. -/
def decodeRecord (s : String) : Option ZipCodeRecord := decodeRecordChars s.data

/-- Line decoding of `loadFromCSV`: same positional split, but an empty
latitude or longitude field defaults to numeric zero before `stod` is ever
called; a `stod` failure on a nonempty field drops the record. -/
def decodeCSVLineChars (cs : List Char) : Option ZipCodeRecord :=
  let fs := splitComma cs
  let lat := fieldAt fs 4
  let lng := fieldAt fs 5
  let laOpt := if lat.isEmpty then some (⟨0, 0⟩ : DoubleVal) else stodChars lat
  let loOpt := if lng.isEmpty then some (⟨0, 0⟩ : DoubleVal) else stodChars lng
  match laOpt, loOpt with
  | some la, some lo =>
    some ⟨String.mk (fieldAt fs 0), String.mk (fieldAt fs 1), String.mk (fieldAt fs 2),
      String.mk (fieldAt fs 3), la, lo⟩
  | _, _ => none

/-- String form of `decodeCSVLineChars`. -/
def decodeCSVLine (s : String) : Option ZipCodeRecord := decodeCSVLineChars s.data

/-- Buffer::loadFromCSV on an already opened file given as its lines: the
first line (the header) is skipped, each further line is parsed and, when
its numeric fields do not throw, appended with `push_back` to the records
the buffer already holds. -/
def loadFromCSV (records : List ZipCodeRecord) (lines : List String) : List ZipCodeRecord :=
  match lines with
  | [] => records
  | _header :: body =>
    body.foldl (fun acc line =>
      match decodeCSVLine line with
      | some r => acc ++ [r]
      | none => acc) records

/-! ## Framed store writer (Buffer::convertToLengthIndicatedFile) -/

/-- The type tag written at the start of the store file. -/
def fileTypeTag : String := "ZipCodeLengthIndicated"

/-- The format version written to the header. -/
def formatVersion : Nat := 1

/-- The header length value computed by the writer:
`fileType.size() + 1 + sizeof(version) + sizeof(headerSize) + sizeof(uint32_t)`. -/
def headerSizeValue : Nat := (strBytes fileTypeTag).length + 1 + 2 + 4 + 4

/-- Header bytes with an arbitrary stored header-size field, used to state
that the reader never consults that field. -/
def headerBytesWith (storedHeaderSize recordCount : Nat) : List Nat :=
  strBytes fileTypeTag ++ [0] ++ toLE 2 formatVersion
    ++ toLE 4 storedHeaderSize ++ toLE 4 recordCount

/-- The header exactly as the writer emits it: type tag bytes and their null
terminator, then version, header size and record count, little endian. -/
def writeHeaderBytes (recordCount : Nat) : List Nat :=
  headerBytesWith headerSizeValue recordCount

/-- One frame as the writer emits it: the byte length of the encoded record
as an unsigned 32-bit value, then the encoded bytes. -/
def encodeFrame (r : ZipCodeRecord) : List Nat :=
  let recordString := strBytes (encodeRecord r)
  toLE 4 recordString.length ++ recordString

/-- Byte length of the encoding of `r`. -/
def encLen (r : ZipCodeRecord) : Nat := (strBytes (encodeRecord r)).length

/-- All frames of a record list, in input order. -/
def framesBytes (records : List ZipCodeRecord) : List Nat :=
  (records.map encodeFrame).flatten

/-- Buffer::convertToLengthIndicatedFile on an opened output file: writes
the header, then folds over the records appending one frame each. -/
def convertToLengthIndicatedFile (records : List ZipCodeRecord) : List Nat :=
  records.foldl (fun acc r => acc ++ encodeFrame r) (writeHeaderBytes records.length)

/-! ## Framed store reader (Buffer::loadFromLengthIndicatedFile) -/

/-- Header parse shared by the reader and the index builder: a getline up to
the null byte, then version, header size and record count.  Returns the
type tag bytes, the three numeric fields and the unread remainder; `none`
models the reads failing outright (no null byte or too few header bytes),
a case the C++ leaves undefined and no theorem below exercises. -/
def parseHeader (bs : List Nat) : Option (List Nat × Nat × Nat × Nat × List Nat) :=
  let fileType := bs.takeWhile (fun b => b != 0)
  match bs.dropWhile (fun b => b != 0) with
  | [] => none
  | _ :: rest1 =>
    if rest1.length < 10 then none
    else
      some (fileType, fromLE (rest1.take 2), fromLE ((rest1.drop 2).take 4),
        fromLE ((rest1.drop 6).take 4), rest1.drop 10)

/-- The frame-reading loop of the reader: for each of `n` frames read the
4-byte length and that many payload bytes, decode, and `push_back` on
success; a record whose decode throws is skipped. -/
def loadFrames : Nat → List ZipCodeRecord → List Nat → List ZipCodeRecord
  | 0, recs, _ => recs
  | n + 1, recs, bs =>
    let len := fromLE (bs.take 4)
    let payload := (bs.drop 4).take len
    let recs1 :=
      match decodeRecordChars (bytesToChars payload) with
      | some r => recs ++ [r]
      | none => recs
    loadFrames n recs1 (bs.drop (4 + len))

/-- Buffer::loadFromLengthIndicatedFile: `none` input models a file that
cannot be opened (the function returns false); otherwise the header is read
and `recordCount` frames are replayed onto the records the buffer already
holds.  A garbled header leaves the C++ loop reading from a failed stream;
the model keeps the prior records in that unexercised case. -/
def loadFromLengthIndicatedFile (records : List ZipCodeRecord) (file : Option (List Nat)) :
    Option (List ZipCodeRecord) :=
  match file with
  | none => none
  | some bs =>
    match parseHeader bs with
    | none => some records
    | some (_, _, _, recordCount, rest) => some (loadFrames recordCount records rest)

/-! ## Index builder (Buffer::createPrimaryKeyIndex) -/

/-- The index-building loop: for each of `n` frames, record the current
position (the first byte of the length field), read the length and payload,
take the first comma-separated token as the key, and emit one entry. -/
def buildIndexFrames : Nat → Nat → List Nat → List (String × Nat)
  | 0, _, _ => []
  | n + 1, pos, bs =>
    let len := fromLE (bs.take 4)
    let payload := (bs.drop 4).take len
    let zip := String.mk (fieldAt (splitComma (bytesToChars payload)) 0)
    (zip, pos) :: buildIndexFrames n (pos + (4 + len)) (bs.drop (4 + len))

/-- Buffer::createPrimaryKeyIndex: parse the header without decoding
payloads, then walk the frames emitting one `(key, offset)` entry each;
`none` models an unopenable data file. -/
def createPrimaryKeyIndex (dataFile : Option (List Nat)) : Option (List (String × Nat)) :=
  match dataFile with
  | none => none
  | some bs =>
    match parseHeader bs with
    | none => some []
    | some (_, _, _, recordCount, rest) =>
      some (buildIndexFrames recordCount (bs.length - rest.length) rest)

/-- Text rendering of one index entry, `indexFile << zip << " " << off << "\n"`. -/
def renderIndexEntry (e : String × Nat) : List Char :=
  e.1.data ++ ' ' :: natToChars e.2 ++ ['\n']

/-- Text content of the whole index file. -/
def renderIndex (es : List (String × Nat)) : List Char :=
  (es.map renderIndexEntry).flatten

/-! ## Indexed lookup (Buffer::searchPrimaryKey, Buffer::readRecordAtOffset) -/

/-- Whitespace-skipping string extraction, `indexFile >> currentZipCode`:
the token is empty exactly when the stream is exhausted and the read fails. -/
def readStringTok (cs : List Char) : List Char × List Char :=
  let cs1 := cs.dropWhile isStreamSpace
  (cs1.takeWhile (fun c => !isStreamSpace c), cs1.dropWhile (fun c => !isStreamSpace c))

/-- Whitespace-skipping integer extraction, `indexFile >> fileOffset`:
optional sign then a nonempty run of digits, else the read fails. -/
def readIntTok (cs : List Char) : Option (Int × List Char) :=
  let cs1 := cs.dropWhile isStreamSpace
  let (sign, cs2) := parseSignChars cs1
  let ds := cs2.takeWhile isDigitCh
  if ds.isEmpty then none
  else some (sign * (digitsToNat ds : Int), cs2.dropWhile isDigitCh)

/-- The scan loop of `searchPrimaryKey`: `while (indexFile >> zip >> off)`
compared against the requested key, first match wins.  Fuel bounds the
iteration count; one character is consumed per iteration at minimum, so
`length + 1` fuel is always enough. -/
def searchLoop : Nat → List Char → List Char → Option Int
  | 0, _, _ => none
  | fuel + 1, cs, zip =>
    let (tok, cs1) := readStringTok cs
    if tok.isEmpty then none
    else
      match readIntTok cs1 with
      | none => none
      | some (off, cs2) => if tok = zip then some off else searchLoop fuel cs2 zip

/-- Buffer::searchPrimaryKey: returns the offset of the first index line
whose key token equals the zip code, and -1 both when no line matches and
when the index file cannot be opened (`none` input). -/
def searchPrimaryKey (indexFile : Option (List Char)) (zipCode : String) : Int :=
  match indexFile with
  | none => -1
  | some cs =>
    match searchLoop (cs.length + 1) cs zipCode.data with
    | some off => off
    | none => -1

/-- Buffer::readRecordAtOffset: seek to the offset, read the 4-byte length
and that many payload bytes, decode.  `none` models both the throw on an
unopenable data file and the rethrown `std::invalid_argument` of a failed
decode. -/
def readRecordAtOffset (dataFile : Option (List Nat)) (fileOffset : Nat) :
    Option ZipCodeRecord :=
  match dataFile with
  | none => none
  | some bs =>
    let s := bs.drop fileOffset
    let len := fromLE (s.take 4)
    let payload := (s.drop 4).take len
    decodeRecordChars (bytesToChars payload)

/-- searchZipCode of main.cpp: index lookup, then positioned read when the
offset is not the -1 sentinel; `none` is the "not found" message path. -/
def searchZipCode (indexFile : Option (List Char)) (dataFile : Option (List Nat))
    (zipCode : String) : Option ZipCodeRecord :=
  let offset := searchPrimaryKey indexFile zipCode
  if offset ≠ -1 then readRecordAtOffset dataFile offset.toNat else none

/-! ## Specification-side definitions -/

/-- Spec 4.5 lookup policy: first entry in file order whose key equals the
requested one. -/
def firstMatch : List (String × Nat) → String → Option Nat
  | [], _ => none
  | (k, v) :: es, zip => if k = zip then some v else firstMatch es zip

/-- Spec 4.3 frame grammar: `n` frames, each a 4-byte length followed by
exactly that many payload bytes; used to state what the writer guarantees. -/
def parseFrames : Nat → List Nat → Option (List (Nat × List Nat) × List Nat)
  | 0, bs => some ([], bs)
  | n + 1, bs =>
    if bs.length < 4 then none
    else
      let len := fromLE (bs.take 4)
      if (bs.drop 4).length < len then none
      else
        match parseFrames n (bs.drop (4 + len)) with
        | none => none
        | some (fs, rest) => some ((len, (bs.drop 4).take len) :: fs, rest)

/-- Byte positions of the length fields of successive frames, starting at
`pos`. -/
def frameOffsets (pos : Nat) : List ZipCodeRecord → List Nat
  | [] => []
  | r :: rs => pos :: frameOffsets (pos + (4 + encLen r)) rs

/-- The index entries the builder should produce for the frames of `records`
starting at byte position `pos`. -/
def expectedEntries (pos : Nat) : List ZipCodeRecord → List (String × Nat)
  | [] => []
  | r :: rs => (r.zipCode, pos) :: expectedEntries (pos + (4 + encLen r)) rs

/-- Comma-freedom of the four text fields of a record: the codec never
escapes its delimiter, so this is what positional decoding needs. -/
def textFieldsOk (r : ZipCodeRecord) : Prop :=
  (',' ∉ r.zipCode.data) ∧ (',' ∉ r.placeName.data) ∧ (',' ∉ r.state.data)
    ∧ (',' ∉ r.county.data)

instance (r : ZipCodeRecord) : Decidable (textFieldsOk r) := by
  unfold textFieldsOk; infer_instance

/-- A numeric field is well formed when its six-significant-digit rendering
parses back to the same value and contains no comma. -/
def numFieldOk (d : DoubleVal) : Prop :=
  stodChars (formatDoubleChars d) = some d ∧ (',' ∉ formatDoubleChars d)

instance (d : DoubleVal) : Decidable (numFieldOk d) := by
  unfold numFieldOk; infer_instance

/-- Both numeric fields of a record are well formed. -/
def numFieldsOk (r : ZipCodeRecord) : Prop :=
  numFieldOk r.latitude ∧ numFieldOk r.longitude

instance (r : ZipCodeRecord) : Decidable (numFieldsOk r) := by
  unfold numFieldsOk; infer_instance

/-- Full well-formedness of a record for the store roundtrip: comma-free
text fields, faithful numeric renderings, and an encoding short enough for
its 32-bit length field. -/
def recordWF (r : ZipCodeRecord) : Prop :=
  textFieldsOk r ∧ numFieldsOk r ∧ encLen r < 2 ^ 32

instance (r : ZipCodeRecord) : Decidable (recordWF r) := by
  unfold recordWF; infer_instance

/-- Keys an index file can carry faithfully through `operator>>` token
reads: nonempty and free of stream whitespace. -/
def keysOk (entries : List (String × Nat)) : Prop :=
  ∀ e ∈ entries, e.1.data ≠ [] ∧ ∀ c ∈ e.1.data, isStreamSpace c = false

instance (entries : List (String × Nat)) : Decidable (keysOk entries) := by
  unfold keysOk; infer_instance

/-- A six-field comma-separated line assembled from given field contents,
used to state the per-path decode policies. -/
def mkLineChars (z p st cty : String) (latF lngF : List Char) : List Char :=
  z.data ++ ',' :: p.data ++ ',' :: st.data ++ ',' :: cty.data ++ ',' :: latF ++ ',' :: lngF

/-- Concrete record fixtures for the witness instances (the spec section 8
example data). -/
def goodRec1 : ZipCodeRecord := ⟨"00001", "A", "NY", "X", ⟨1, 0⟩, ⟨2, 0⟩⟩

/-- Second fixture record. -/
def goodRec2 : ZipCodeRecord := ⟨"00002", "B", "CA", "Y", ⟨3, 0⟩, ⟨4, 0⟩⟩

/-- Third fixture record. -/
def goodRec3 : ZipCodeRecord := ⟨"00003", "C", "NY", "Z", ⟨5, 0⟩, ⟨6, 0⟩⟩

/-- A record whose place name embeds the delimiter, so its own encoding no
longer decodes (the numeric field slot shifts to the text "W"). -/
def badRec : ZipCodeRecord := ⟨"00004", "a,b", "TX", "W", ⟨1, 0⟩, ⟨2, 0⟩⟩

/-- Three well-formed fixture records. -/
def sampleRecords : List ZipCodeRecord := [goodRec1, goodRec2, goodRec3]

/-- Fixture list with a non-decodable record in the middle. -/
def mixedRecords : List ZipCodeRecord := [goodRec1, badRec, goodRec3]

/-- Fixture index entries with a duplicate key. -/
def sampleEntries : List (String × Nat) := [("00001", 33), ("00002", 53), ("00002", 99)]

/-! ## Supporting lemmas: lists, splitting, strings -/

theorem takeWhile_append_all {α : Type} (p : α → Bool) (l₁ l₂ : List α)
    (h : ∀ a ∈ l₁, p a = true) :
    (l₁ ++ l₂).takeWhile p = l₁ ++ l₂.takeWhile p := by
  induction l₁ with
  | nil => simp
  | cons a l ih =>
    have ha := h a (by simp)
    simp only [List.cons_append, List.takeWhile_cons, ha, if_true]
    rw [ih (fun x hx => h x (by simp [hx]))]

theorem dropWhile_append_all {α : Type} (p : α → Bool) (l₁ l₂ : List α)
    (h : ∀ a ∈ l₁, p a = true) :
    (l₁ ++ l₂).dropWhile p = l₂.dropWhile p := by
  induction l₁ with
  | nil => simp
  | cons a l ih =>
    have ha := h a (by simp)
    simp only [List.cons_append, List.dropWhile_cons, ha, if_true]
    exact ih (fun x hx => h x (by simp [hx]))

theorem take_append_len {α : Type} (l₁ l₂ : List α) (n : Nat) (h : n = l₁.length) :
    (l₁ ++ l₂).take n = l₁ := by
  subst h; exact List.take_left l₁ l₂

theorem drop_append_len {α : Type} (l₁ l₂ : List α) (n : Nat) (h : n = l₁.length) :
    (l₁ ++ l₂).drop n = l₂ := by
  subst h; exact List.drop_left l₁ l₂

theorem splitComma_no_comma (a : List Char) (h : ',' ∉ a) : splitComma a = [a] := by
  induction a with
  | nil => rfl
  | cons c cs ih =>
    have hc : ¬(c = ',') := fun hc => h (by simp [hc])
    have hcs := ih (fun hm => h (List.mem_cons_of_mem c hm))
    simp [splitComma, hc, hcs]

theorem splitComma_append (a rest : List Char) (h : ',' ∉ a) :
    splitComma (a ++ ',' :: rest) = a :: splitComma rest := by
  induction a with
  | nil => simp [splitComma]
  | cons c cs ih =>
    have hc : ¬(c = ',') := fun hc => h (by simp [hc])
    have hcs := ih (fun hm => h (List.mem_cons_of_mem c hm))
    simp only [List.cons_append, splitComma, hc, if_false, List.append_eq, hcs]

theorem stringMk_data (s : String) : String.mk s.data = s := by
  cases s; rfl

theorem stringData_inj {s t : String} (h : s.data = t.data) : s = t := by
  cases s; cases t; exact congrArg String.mk h

theorem encodeRecord_data (r : ZipCodeRecord) :
    (encodeRecord r).data
      = r.zipCode.data ++ ',' :: r.placeName.data ++ ',' :: r.state.data
          ++ ',' :: r.county.data ++ ',' :: formatDoubleChars r.latitude
          ++ ',' :: formatDoubleChars r.longitude := by
  simp only [encodeRecord, formatDouble, String.data_append]
  simp [List.append_assoc]

theorem splitComma_encodeRecord (r : ZipCodeRecord) (ht : textFieldsOk r)
    (hlat : ',' ∉ formatDoubleChars r.latitude) (hlng : ',' ∉ formatDoubleChars r.longitude) :
    splitComma (encodeRecord r).data
      = [r.zipCode.data, r.placeName.data, r.state.data, r.county.data,
          formatDoubleChars r.latitude, formatDoubleChars r.longitude] := by
  obtain ⟨h1, h2, h3, h4⟩ := ht
  rw [encodeRecord_data]
  simp only [List.cons_append, List.append_assoc]
  rw [splitComma_append _ _ h1, splitComma_append _ _ h2,
    splitComma_append _ _ h3, splitComma_append _ _ h4, splitComma_append _ _ hlat,
    splitComma_no_comma _ hlng]

theorem decodeRecordChars_encodeRecord (r : ZipCodeRecord) (ht : textFieldsOk r)
    (hn : numFieldsOk r) :
    decodeRecordChars (encodeRecord r).data = some r := by
  obtain ⟨⟨hla, hlac⟩, hlo, hloc⟩ := hn
  simp only [decodeRecordChars, splitComma_encodeRecord r ht hlac hloc, fieldAt,
    List.getD_cons_succ, List.getD_cons_zero, hla, hlo, stringMk_data]

/-! ## Supporting lemmas: binary layout -/

theorem toLE_length (w : Nat) : ∀ v, (toLE w v).length = w := by
  induction w with
  | zero => intro v; rfl
  | succ w ih => intro v; simp [toLE, ih]

theorem fromLE_toLE (w : Nat) : ∀ v, v < 256 ^ w → fromLE (toLE w v) = v := by
  induction w with
  | zero =>
    intro v hv
    simp [pow_zero] at hv
    simp [toLE, fromLE, hv]
  | succ w ih =>
    intro v hv
    have hdiv : v / 256 < 256 ^ w := by
      rw [Nat.div_lt_iff_lt_mul (by norm_num)]
      calc v < 256 ^ (w + 1) := hv
        _ = 256 ^ w * 256 := by ring
    simp only [toLE, fromLE, ih (v / 256) hdiv]
    omega

theorem bytesToChars_strBytes (s : String) : bytesToChars (strBytes s) = s.data := by
  rw [bytesToChars, strBytes, List.map_map]
  have h : Char.ofNat ∘ Char.toNat = id := funext fun c => Char.ofNat_toNat c
  rw [h, List.map_id]

theorem framesBytes_nil : framesBytes [] = [] := rfl

theorem framesBytes_cons (r : ZipCodeRecord) (rs : List ZipCodeRecord) :
    framesBytes (r :: rs) = encodeFrame r ++ framesBytes rs := by
  simp [framesBytes]

theorem encodeFrame_length (r : ZipCodeRecord) :
    (encodeFrame r).length = 4 + encLen r := by
  simp [encodeFrame, toLE_length, encLen]

theorem foldl_frames (recs : List ZipCodeRecord) :
    ∀ init, recs.foldl (fun acc r => acc ++ encodeFrame r) init = init ++ framesBytes recs := by
  induction recs with
  | nil => intro init; simp [framesBytes_nil]
  | cons r rs ih =>
    intro init
    rw [List.foldl_cons, ih, framesBytes_cons, List.append_assoc]

theorem convert_eq (recs : List ZipCodeRecord) :
    convertToLengthIndicatedFile recs = writeHeaderBytes recs.length ++ framesBytes recs :=
  foldl_frames recs _

theorem headerSizeValue_eq : headerSizeValue = 33 := by decide

theorem writeHeaderBytes_length (n : Nat) : (writeHeaderBytes n).length = headerSizeValue := by
  simp [writeHeaderBytes, headerBytesWith, toLE_length, headerSizeValue]

theorem parseHeader_shape (rest : List Nat) :
    parseHeader (strBytes fileTypeTag ++ 0 :: rest)
      = if rest.length < 10 then none
        else some (strBytes fileTypeTag, fromLE (rest.take 2), fromLE ((rest.drop 2).take 4),
          fromLE ((rest.drop 6).take 4), rest.drop 10) := by
  have hTag : ∀ b ∈ strBytes fileTypeTag, ((b != (0 : Nat)) = true) := by decide
  simp only [parseHeader]
  rw [takeWhile_append_all _ _ _ hTag, dropWhile_append_all _ _ _ hTag]
  rfl

theorem parseHeader_headerBytesWith (hs n : Nat) (tail : List Nat)
    (hh : hs < 2 ^ 32) (hn : n < 2 ^ 32) :
    parseHeader (headerBytesWith hs n ++ tail)
      = some (strBytes fileTypeTag, formatVersion, hs, n, tail) := by
  have hshape : headerBytesWith hs n ++ tail
      = strBytes fileTypeTag
          ++ 0 :: (toLE 2 formatVersion ++ (toLE 4 hs ++ (toLE 4 n ++ tail))) := by
    simp [headerBytesWith, List.append_assoc]
  rw [hshape, parseHeader_shape]
  have hlen : (toLE 2 formatVersion ++ (toLE 4 hs ++ (toLE 4 n ++ tail))).length
      = 10 + tail.length := by
    simp only [List.length_append, toLE_length]; omega
  rw [if_neg (by omega)]
  have t2 : (toLE 2 formatVersion ++ (toLE 4 hs ++ (toLE 4 n ++ tail))).take 2
      = toLE 2 formatVersion :=
    take_append_len _ _ _ (by simp [toLE_length])
  have d2 : (toLE 2 formatVersion ++ (toLE 4 hs ++ (toLE 4 n ++ tail))).drop 2
      = toLE 4 hs ++ (toLE 4 n ++ tail) :=
    drop_append_len _ _ _ (by simp [toLE_length])
  have d6 : (toLE 2 formatVersion ++ (toLE 4 hs ++ (toLE 4 n ++ tail))).drop 6
      = toLE 4 n ++ tail := by
    have h64 : (toLE 2 formatVersion ++ (toLE 4 hs ++ (toLE 4 n ++ tail))).drop 6
        = ((toLE 2 formatVersion ++ (toLE 4 hs ++ (toLE 4 n ++ tail))).drop 2).drop 4 := by
      rw [List.drop_drop]
    rw [h64, d2]
    exact drop_append_len _ _ _ (by simp [toLE_length])
  have d10 : (toLE 2 formatVersion ++ (toLE 4 hs ++ (toLE 4 n ++ tail))).drop 10 = tail := by
    have h10 : (toLE 2 formatVersion ++ (toLE 4 hs ++ (toLE 4 n ++ tail))).drop 10
        = ((toLE 2 formatVersion ++ (toLE 4 hs ++ (toLE 4 n ++ tail))).drop 6).drop 4 := by
      rw [List.drop_drop]
    rw [h10, d6]
    exact drop_append_len _ _ _ (by simp [toLE_length])
  rw [t2, d2, d6, d10]
  rw [take_append_len (toLE 4 hs) _ 4 (by simp [toLE_length]),
    take_append_len (toLE 4 n) tail 4 (by simp [toLE_length])]
  rw [fromLE_toLE 2 formatVersion (by norm_num [formatVersion]),
    fromLE_toLE 4 hs (by omega), fromLE_toLE 4 n (by omega)]

/-! ## Supporting lemmas: frames, index building, offset reads -/

theorem frames_take4 (r : ZipCodeRecord) (rest : List Nat) :
    (encodeFrame r ++ rest).take 4 = toLE 4 (encLen r) := by
  rw [encodeFrame, List.append_assoc]
  exact take_append_len _ _ _ (by simp [toLE_length])

theorem frames_payload (r : ZipCodeRecord) (rest : List Nat) :
    ((encodeFrame r ++ rest).drop 4).take (encLen r) = strBytes (encodeRecord r) := by
  rw [encodeFrame, List.append_assoc,
    drop_append_len (toLE 4 (strBytes (encodeRecord r)).length) _ 4 (by simp [toLE_length])]
  exact take_append_len _ _ _ rfl

theorem frames_advance (r : ZipCodeRecord) (rest : List Nat) :
    (encodeFrame r ++ rest).drop (4 + encLen r) = rest := by
  exact drop_append_len _ _ _ (by rw [encodeFrame_length])

theorem frames_len_value (r : ZipCodeRecord) (rest : List Nat) (h : encLen r < 2 ^ 32) :
    fromLE ((encodeFrame r ++ rest).take 4) = encLen r := by
  rw [frames_take4]
  exact fromLE_toLE 4 _ (by norm_num at h ⊢; omega)

theorem buildIndexFrames_length (n : Nat) :
    ∀ pos bs, (buildIndexFrames n pos bs).length = n := by
  induction n with
  | zero => intro pos bs; rfl
  | succ n ih => intro pos bs; simp [buildIndexFrames, ih]

theorem firstField_encodeRecord (r : ZipCodeRecord) (h : ',' ∉ r.zipCode.data) :
    fieldAt (splitComma (encodeRecord r).data) 0 = r.zipCode.data := by
  rw [encodeRecord_data]
  simp only [List.cons_append, List.append_assoc]
  rw [splitComma_append _ _ h]
  rfl

theorem buildIndexFrames_expected (recs : List ZipCodeRecord) :
    ∀ pos tail, (∀ r ∈ recs, encLen r < 2 ^ 32 ∧ ',' ∉ r.zipCode.data) →
      buildIndexFrames recs.length pos (framesBytes recs ++ tail) = expectedEntries pos recs := by
  induction recs with
  | nil => intro pos tail _; rfl
  | cons r rs ih =>
    intro pos tail h
    obtain ⟨hlen, hz⟩ := h r (by simp)
    have hrs := fun x hx => h x (List.mem_cons_of_mem r hx)
    rw [List.length_cons, framesBytes_cons, List.append_assoc]
    simp only [buildIndexFrames, frames_len_value r _ hlen, frames_payload, frames_advance,
      bytesToChars_strBytes, firstField_encodeRecord r hz, stringMk_data, expectedEntries]
    rw [ih _ _ hrs]

theorem expectedEntries_map_snd (recs : List ZipCodeRecord) :
    ∀ pos, (expectedEntries pos recs).map Prod.snd = frameOffsets pos recs := by
  induction recs with
  | nil => intro pos; rfl
  | cons r rs ih => intro pos; simp [expectedEntries, frameOffsets, ih]

theorem mem_expectedEntries (recs : List ZipCodeRecord) :
    ∀ pos k off, (k, off) ∈ expectedEntries pos recs →
      ∃ i, ∃ hi : i < recs.length,
        k = (recs.get ⟨i, hi⟩).zipCode ∧ off = (frameOffsets pos recs).getD i 0 := by
  induction recs with
  | nil => intro pos k off h; simp [expectedEntries] at h
  | cons r rs ih =>
    intro pos k off h
    rw [expectedEntries, List.mem_cons] at h
    rcases h with h | h
    · rw [Prod.ext_iff] at h
      exact ⟨0, by simp, h.1, by simpa [frameOffsets] using h.2⟩
    · obtain ⟨i, hi, hk, hoff⟩ := ih _ k off h
      exact ⟨i + 1, by simpa using hi, by simpa using hk, by simpa [frameOffsets] using hoff⟩

theorem drop_store_at_offset (recs : List ZipCodeRecord) :
    ∀ i, i < recs.length → ∀ (prefixBs tail : List Nat),
      (prefixBs ++ (framesBytes recs ++ tail)).drop ((frameOffsets prefixBs.length recs).getD i 0)
        = framesBytes (recs.drop i) ++ tail := by
  induction recs with
  | nil => intro i hi; simp at hi
  | cons r rs ih =>
    intro i hi prefixBs tail
    match i with
    | 0 =>
      rw [frameOffsets]
      simp only [List.getD_cons_zero, List.drop_zero]
      rw [drop_append_len _ _ _ rfl]
    | i + 1 =>
      rw [frameOffsets]
      simp only [List.getD_cons_succ]
      have hre : prefixBs ++ (framesBytes (r :: rs) ++ tail)
          = (prefixBs ++ encodeFrame r) ++ (framesBytes rs ++ tail) := by
        rw [framesBytes_cons]; simp [List.append_assoc]
      have hpos : prefixBs.length + (4 + encLen r) = (prefixBs ++ encodeFrame r).length := by
        simp [List.length_append, encodeFrame_length]
      rw [hre, hpos, ih i (by simpa using hi)]
      rfl

theorem readRecordAtOffset_frame (recs : List ZipCodeRecord) (i : Nat) (hi : i < recs.length)
    (prefixBs tail : List Nat) (h : ∀ r ∈ recs, encLen r < 2 ^ 32) :
    readRecordAtOffset (some (prefixBs ++ (framesBytes recs ++ tail)))
        ((frameOffsets prefixBs.length recs).getD i 0)
      = decodeRecordChars (encodeRecord (recs.get ⟨i, hi⟩)).data := by
  simp only [readRecordAtOffset]
  rw [drop_store_at_offset recs i hi prefixBs tail]
  have hdrop : recs.drop i = recs.get ⟨i, hi⟩ :: recs.drop (i + 1) :=
    List.drop_eq_getElem_cons hi
  rw [hdrop, framesBytes_cons]
  have hmem : recs.get ⟨i, hi⟩ ∈ recs := recs.get_mem i hi
  rw [List.append_assoc, frames_len_value _ _ (h _ hmem), frames_payload, bytesToChars_strBytes]

/-! ## Supporting lemmas: bulk load and frame grammar -/

theorem loadFrames_frames (recs : List ZipCodeRecord) :
    ∀ (acc : List ZipCodeRecord) (tail : List Nat), (∀ r ∈ recs, encLen r < 2 ^ 32) →
      loadFrames recs.length acc (framesBytes recs ++ tail)
        = acc ++ recs.filterMap (fun r => decodeRecordChars (encodeRecord r).data) := by
  induction recs with
  | nil => intro acc tail _; simp [framesBytes_nil, loadFrames]
  | cons r rs ih =>
    intro acc tail h
    have hr := h r (by simp)
    have hrs := fun x hx => h x (List.mem_cons_of_mem r hx)
    rw [List.length_cons, framesBytes_cons, List.append_assoc]
    simp only [loadFrames, frames_len_value r _ hr, frames_payload, frames_advance,
      bytesToChars_strBytes, List.filterMap_cons]
    cases hdec : decodeRecordChars (encodeRecord r).data with
    | none => simp only [hdec, ih _ _ hrs]
    | some v =>
      simp only [hdec, ih _ _ hrs, List.append_assoc, List.singleton_append]

theorem loadFrames_acc (n : Nat) :
    ∀ acc bs, loadFrames n acc bs = acc ++ loadFrames n [] bs := by
  induction n with
  | zero => intro acc bs; simp [loadFrames]
  | succ n ih =>
    intro acc bs
    simp only [loadFrames]
    cases hdec : decodeRecordChars (bytesToChars ((bs.drop 4).take (fromLE (bs.take 4)))) with
    | none => simp only [hdec]; exact ih acc _
    | some v =>
      simp only [hdec]
      rw [ih (acc ++ [v]), ih ([] ++ [v]), List.append_assoc]
      simp

theorem parseFrames_frames (recs : List ZipCodeRecord) :
    ∀ tail, (∀ r ∈ recs, encLen r < 2 ^ 32) →
      parseFrames recs.length (framesBytes recs ++ tail)
        = some (recs.map (fun r => (encLen r, strBytes (encodeRecord r))), tail) := by
  induction recs with
  | nil => intro tail _; simp [framesBytes_nil, parseFrames]
  | cons r rs ih =>
    intro tail h
    have hr := h r (by simp)
    have hrs := fun x hx => h x (List.mem_cons_of_mem r hx)
    rw [List.length_cons, framesBytes_cons, List.append_assoc]
    have hlen4 : ¬((encodeFrame r ++ (framesBytes rs ++ tail)).length < 4) := by
      rw [List.length_append, encodeFrame_length]; omega
    have hpay : ¬(((encodeFrame r ++ (framesBytes rs ++ tail)).drop 4).length < encLen r) := by
      rw [List.length_drop, List.length_append, encodeFrame_length]
      omega
    simp only [parseFrames, hlen4, if_false, frames_len_value r _ hr, frames_payload,
      frames_advance, ih _ hrs, List.map_cons]
    rw [if_neg hpay]

theorem filterMap_length_lt {α β : Type} (f : α → Option β) (l : List α) :
    ∀ i, ∀ hi : i < l.length, f (l.get ⟨i, hi⟩) = none →
      (l.filterMap f).length < l.length := by
  induction l with
  | nil => intro i hi; simp at hi
  | cons x xs ih =>
    intro i hi hnone
    match i with
    | 0 =>
      simp only [List.get] at hnone
      rw [List.filterMap_cons_none hnone]
      have := List.length_filterMap_le f xs
      simp only [List.length_cons]
      omega
    | i + 1 =>
      simp only [List.get] at hnone
      have hlt := ih i (by simpa using hi) hnone
      simp only [List.length_cons]
      cases hfx : f x with
      | none => rw [List.filterMap_cons_none hfx]; omega
      | some v => rw [List.filterMap_cons_some hfx, List.length_cons]; omega

theorem foldl_push_acc (body : List String) :
    ∀ init, body.foldl (fun acc line =>
        match decodeCSVLine line with
        | some r => acc ++ [r]
        | none => acc) init
      = init ++ body.foldl (fun acc line =>
        match decodeCSVLine line with
        | some r => acc ++ [r]
        | none => acc) [] := by
  induction body with
  | nil => intro init; simp
  | cons line rest ih =>
    intro init
    simp only [List.foldl_cons]
    cases hdec : decodeCSVLine line with
    | none => simp only [hdec]; exact ih init
    | some r =>
      simp only [hdec]
      rw [ih (init ++ [r]), ih ([] ++ [r]), List.append_assoc]
      simp

/-! ## Supporting lemmas: decimal rendering and index scanning -/

theorem toNat_digitChar (d : Nat) (h : d < 10) : (digitChar d).toNat = 48 + d := by
  have hfin : ∀ d : Fin 10, (digitChar d.val).toNat = 48 + d.val := by decide
  exact hfin ⟨d, h⟩

theorem isDigitCh_digitChar (d : Nat) (h : d < 10) : isDigitCh (digitChar d) = true := by
  have hfin : ∀ d : Fin 10, isDigitCh (digitChar d.val) = true := by decide
  exact hfin ⟨d, h⟩

theorem digitVal_digitChar (d : Nat) (h : d < 10) : digitVal (digitChar d) = d := by
  have hfin : ∀ d : Fin 10, digitVal (digitChar d.val) = d.val := by decide
  exact hfin ⟨d, h⟩

theorem natToCharsAux_digits (fuel : Nat) :
    ∀ n c, c ∈ natToCharsAux fuel n → isDigitCh c = true := by
  induction fuel with
  | zero => intro n c hc; simp [natToCharsAux] at hc
  | succ fuel ih =>
    intro n c hc
    by_cases hn : n = 0
    · simp [natToCharsAux, hn] at hc
    · rw [natToCharsAux, if_neg hn] at hc
      rcases List.mem_append.mp hc with hc | hc
      · exact ih _ _ hc
      · have : c = digitChar (n % 10) := by simpa using hc
        rw [this]
        exact isDigitCh_digitChar _ (Nat.mod_lt _ (by norm_num))

theorem natToChars_digits (n : Nat) : ∀ c ∈ natToChars n, isDigitCh c = true := by
  intro c hc
  by_cases hn : n = 0
  · simp [natToChars, hn] at hc; rw [hc]; decide
  · rw [natToChars, if_neg hn] at hc
    exact natToCharsAux_digits _ _ _ hc

theorem natToChars_ne_nil (n : Nat) : natToChars n ≠ [] := by
  by_cases hn : n = 0
  · simp [natToChars, hn]
  · rw [natToChars, if_neg hn, natToCharsAux, if_neg hn]
    simp

theorem digitsToNat_append_one (l : List Char) (c : Char) :
    digitsToNat (l ++ [c]) = digitsToNat l * 10 + digitVal c := by
  simp [digitsToNat, List.foldl_append]

theorem digitsToNat_natToCharsAux (fuel : Nat) :
    ∀ n, n < fuel → digitsToNat (natToCharsAux fuel n) = n := by
  induction fuel with
  | zero => intro n hn; omega
  | succ fuel ih =>
    intro n hn
    by_cases h0 : n = 0
    · simp [natToCharsAux, h0, digitsToNat]
    · rw [natToCharsAux, if_neg h0, digitsToNat_append_one]
      have hdiv : n / 10 < fuel := by
        have : n / 10 < n := Nat.div_lt_self (by omega) (by norm_num)
        omega
      rw [ih _ hdiv, digitVal_digitChar _ (Nat.mod_lt _ (by norm_num))]
      have := Nat.div_add_mod n 10
      omega

theorem digitsToNat_natToChars (n : Nat) : digitsToNat (natToChars n) = n := by
  by_cases h0 : n = 0
  · subst h0; decide
  · rw [natToChars, if_neg h0]
    exact digitsToNat_natToCharsAux _ _ (by omega)

theorem digit_not_space (c : Char) (h : isDigitCh c = true) : isStreamSpace c = false := by
  have h1 : 48 ≤ c.toNat ∧ c.toNat ≤ 57 := by simpa [isDigitCh] using h
  cases hc : isStreamSpace c with
  | false => rfl
  | true =>
    have h2 : c.toNat = 32 ∨ (9 ≤ c.toNat ∧ c.toNat ≤ 13) := by simpa [isStreamSpace] using hc
    omega

theorem digit_ne_plus (c : Char) (h : isDigitCh c = true) : ¬(c = '+') := by
  intro he; rw [he] at h; exact absurd h (by decide)

theorem digit_ne_minus (c : Char) (h : isDigitCh c = true) : ¬(c = '-') := by
  intro he; rw [he] at h; exact absurd h (by decide)

theorem readStringTok_ws (ws k restCs : List Char) (hws : ∀ c ∈ ws, isStreamSpace c = true)
    (hk : k ≠ []) (hkc : ∀ c ∈ k, isStreamSpace c = false) :
    readStringTok (ws ++ (k ++ ' ' :: restCs)) = (k, ' ' :: restCs) := by
  unfold readStringTok
  dsimp only
  rw [dropWhile_append_all _ _ _ hws]
  have hdrop : (k ++ ' ' :: restCs).dropWhile isStreamSpace = k ++ ' ' :: restCs := by
    cases k with
    | nil => exact absurd rfl hk
    | cons c t =>
      rw [List.cons_append, List.dropWhile_cons, hkc c (by simp)]
      simp
  rw [hdrop]
  have hknot : ∀ c ∈ k, (!isStreamSpace c) = true := fun c hc => by rw [hkc c hc]; rfl
  rw [takeWhile_append_all _ _ _ hknot, dropWhile_append_all _ _ _ hknot]
  have hsp : (!isStreamSpace ' ') = false := by decide
  rw [List.takeWhile_cons, hsp, List.dropWhile_cons, hsp]
  simp

theorem readIntTok_offset (v : Nat) (restCs : List Char) :
    readIntTok (' ' :: (natToChars v ++ '\n' :: restCs)) = some ((v : Int), '\n' :: restCs) := by
  unfold readIntTok
  rw [List.dropWhile_cons]
  have hsp : isStreamSpace ' ' = true := by decide
  rw [hsp]
  simp only [if_true]
  obtain ⟨c, t, hct⟩ : ∃ c t, natToChars v = c :: t := by
    cases hnc : natToChars v with
    | nil => exact absurd hnc (natToChars_ne_nil v)
    | cons c t => exact ⟨c, t, rfl⟩
  have hcd : isDigitCh c = true := natToChars_digits v c (by rw [hct]; simp)
  have hdropv : (natToChars v ++ '\n' :: restCs).dropWhile isStreamSpace
      = natToChars v ++ '\n' :: restCs := by
    rw [hct, List.cons_append, List.dropWhile_cons, digit_not_space c hcd]
    simp
  rw [hdropv]
  have hsign : parseSignChars (natToChars v ++ '\n' :: restCs)
      = (1, natToChars v ++ '\n' :: restCs) := by
    rw [hct, List.cons_append, parseSignChars]
    rw [if_neg (digit_ne_plus c hcd), if_neg (digit_ne_minus c hcd)]
  rw [hsign]
  have hdig : ∀ ch ∈ natToChars v, isDigitCh ch = true := natToChars_digits v
  have hnl : isDigitCh '\n' = false := by decide
  have htake : (natToChars v ++ '\n' :: restCs).takeWhile isDigitCh = natToChars v := by
    rw [takeWhile_append_all _ _ _ hdig, List.takeWhile_cons, hnl]
    simp
  have hdrop2 : (natToChars v ++ '\n' :: restCs).dropWhile isDigitCh = '\n' :: restCs := by
    rw [dropWhile_append_all _ _ _ hdig, List.dropWhile_cons, hnl]
    simp
  rw [htake, hdrop2]
  have hne : (natToChars v).isEmpty = false := by
    rw [hct]; rfl
  rw [hne]
  simp [digitsToNat_natToChars]

theorem searchLoop_render (entries : List (String × Nat)) :
    ∀ fuel (ws : List Char) (zip : String), entries.length < fuel →
      (∀ c ∈ ws, isStreamSpace c = true) → keysOk entries →
      searchLoop fuel (ws ++ renderIndex entries) zip.data
        = (firstMatch entries zip).map Int.ofNat := by
  induction entries with
  | nil =>
    intro fuel ws zip hf hws _
    cases fuel with
    | zero => simp at hf
    | succ fuel =>
      have hrn : renderIndex [] = [] := rfl
      rw [hrn, List.append_nil, searchLoop]
      unfold readStringTok
      rw [List.dropWhile_eq_nil_iff.mpr hws]
      simp [firstMatch]
  | cons e es ih =>
    obtain ⟨k, v⟩ := e
    intro fuel ws zip hf hws hkeys
    obtain ⟨hk1, hk2⟩ := hkeys (k, v) (by simp)
    have hkeys2 : keysOk es := fun x hx => hkeys x (by simp [hx])
    cases fuel with
    | zero => simp at hf
    | succ fuel =>
      have hrender : ws ++ renderIndex ((k, v) :: es)
          = ws ++ (k.data ++ ' ' :: (natToChars v ++ '\n' :: renderIndex es)) := by
        simp [renderIndex, renderIndexEntry]
      rw [hrender, searchLoop]
      rw [readStringTok_ws ws k.data _ hws hk1 hk2]
      dsimp only
      have hkne : k.data.isEmpty = false := by
        cases hd : k.data with
        | nil => exact absurd hd hk1
        | cons a t => rfl
      rw [hkne]
      simp only [Bool.false_eq_true, if_false]
      rw [readIntTok_offset v (renderIndex es)]
      dsimp only
      by_cases hkz : k = zip
      · rw [if_pos (congrArg String.data hkz)]
        simp [firstMatch, hkz]
      · rw [if_neg (fun h => hkz (stringData_inj h))]
        rw [firstMatch, if_neg hkz]
        have hstep : ('\n' :: renderIndex es) = ['\n'] ++ renderIndex es := rfl
        rw [hstep]
        exact ih fuel ['\n'] zip (by simpa using hf) (by decide) hkeys2

theorem renderIndex_length_ge (entries : List (String × Nat)) (hkeys : keysOk entries) :
    entries.length ≤ (renderIndex entries).length := by
  induction entries with
  | nil => simp [renderIndex]
  | cons e es ih =>
    obtain ⟨hk1, _⟩ := hkeys e (by simp)
    have hkeys2 : keysOk es := fun x hx => hkeys x (by simp [hx])
    have h1 : 1 ≤ e.1.data.length := List.length_pos.mpr hk1
    have hrest := ih hkeys2
    simp only [renderIndex, List.map_cons, List.flatten_cons, renderIndexEntry,
      List.length_append, List.length_cons]
    simp only [renderIndex] at hrest
    omega

/-! ## Shared corollaries used by several claims -/

theorem parseHeader_convert (recs : List ZipCodeRecord) (hcnt : recs.length < 2 ^ 32) :
    parseHeader (convertToLengthIndicatedFile recs)
      = some (strBytes fileTypeTag, formatVersion, headerSizeValue, recs.length, framesBytes recs) := by
  rw [convert_eq, writeHeaderBytes]
  exact parseHeader_headerBytesWith _ _ _ (by rw [headerSizeValue_eq]; norm_num) hcnt

theorem splitComma_mkLineChars (z p st cty : String) (latF lngF : List Char)
    (hz : ',' ∉ z.data) (hp : ',' ∉ p.data) (hst : ',' ∉ st.data) (hcty : ',' ∉ cty.data)
    (hlatc : ',' ∉ latF) (hlngc : ',' ∉ lngF) :
    splitComma (mkLineChars z p st cty latF lngF)
      = [z.data, p.data, st.data, cty.data, latF, lngF] := by
  unfold mkLineChars
  simp only [List.cons_append, List.append_assoc]
  rw [splitComma_append _ _ hz, splitComma_append _ _ hp, splitComma_append _ _ hst,
    splitComma_append _ _ hcty, splitComma_append _ _ hlatc, splitComma_no_comma _ hlngc]

/-! ## Claim theorems -/

/-- Claim C1, counterexample: a record whose place name embeds the delimiter
has well-formed numeric fields, yet decoding its encoding does not return
the record (the comma shifts every later field).  This falsifies the claim
as stated, which conditions only on the numeric fields. -/
theorem roundtrip_comma_counterexample :
    numFieldsOk badRec ∧ decodeRecord (encodeRecord badRec) ≠ some badRec := by
  constructor
  · decide
  · decide

/-- Claim C1, amended: for every record whose four text fields contain no
comma and whose latitude and longitude are well-formed numbers (their
rendering parses back to the same value and contains no comma), decoding
the encoding yields the record back unchanged. -/
theorem decode_encode_roundtrip (r : ZipCodeRecord) (ht : textFieldsOk r)
    (hn : numFieldsOk r) :
    decodeRecord (encodeRecord r) = some r := by
  rw [decodeRecord]
  exact decodeRecordChars_encodeRecord r ht hn

/-- Claim C1, witness: the amended roundtrip at a concrete record. -/
theorem decode_encode_roundtrip_witness :
    textFieldsOk goodRec1 ∧ numFieldsOk goodRec1
      ∧ decodeRecord (encodeRecord goodRec1) = some goodRec1 :=
  ⟨by decide, by decide, decode_encode_roundtrip goodRec1 (by decide) (by decide)⟩

/-- Claim C2: over a store written from well-formed records, the index
builder emits exactly the entries whose offsets are the byte positions of
the successive frame length fields, and a positioned read at any entry
offset decodes a record whose key equals the entry key. -/
theorem index_offset_read_correct (recs : List ZipCodeRecord)
    (hwf : ∀ r ∈ recs, recordWF r) (hcnt : recs.length < 2 ^ 32) :
    ∃ entries, createPrimaryKeyIndex (some (convertToLengthIndicatedFile recs)) = some entries
      ∧ entries.map Prod.snd = frameOffsets (writeHeaderBytes recs.length).length recs
      ∧ ∀ k off, (k, off) ∈ entries →
          ∃ rec, readRecordAtOffset (some (convertToLengthIndicatedFile recs)) off = some rec
            ∧ rec.zipCode = k := by
  have hstruct : ∀ r ∈ recs, encLen r < 2 ^ 32 ∧ ',' ∉ r.zipCode.data := fun r hr =>
    ⟨(hwf r hr).2.2, (hwf r hr).1.1⟩
  have hconv := convert_eq recs
  have hparse := parseHeader_convert recs hcnt
  have hbuild : buildIndexFrames recs.length
      ((convertToLengthIndicatedFile recs).length - (framesBytes recs).length)
      (framesBytes recs)
      = expectedEntries (writeHeaderBytes recs.length).length recs := by
    have hpos : (convertToLengthIndicatedFile recs).length - (framesBytes recs).length
        = (writeHeaderBytes recs.length).length := by
      rw [hconv, List.length_append]; omega
    rw [hpos]
    have hb := buildIndexFrames_expected recs (writeHeaderBytes recs.length).length [] hstruct
    simpa using hb
  refine ⟨expectedEntries (writeHeaderBytes recs.length).length recs, ?_, ?_, ?_⟩
  · simp only [createPrimaryKeyIndex, hparse]
    exact congrArg some hbuild
  · exact expectedEntries_map_snd recs _
  · intro k off hmem
    obtain ⟨i, hi, hk, hoff⟩ := mem_expectedEntries recs _ k off hmem
    refine ⟨recs.get ⟨i, hi⟩, ?_, hk.symm⟩
    rw [hoff, hconv]
    have hsh : writeHeaderBytes recs.length ++ framesBytes recs
        = writeHeaderBytes recs.length ++ (framesBytes recs ++ []) := by simp
    rw [hsh, readRecordAtOffset_frame recs i hi _ [] (fun r hr => (hwf r hr).2.2)]
    exact decodeRecordChars_encodeRecord _ (hwf _ (recs.get_mem i hi)).1
      (hwf _ (recs.get_mem i hi)).2.1

/-- Claim C2, witness: the index and positioned reads at the three-record
fixture store. -/
theorem index_offset_read_correct_witness :
    ∃ entries, createPrimaryKeyIndex (some (convertToLengthIndicatedFile sampleRecords))
        = some entries
      ∧ entries.map Prod.snd
          = frameOffsets (writeHeaderBytes sampleRecords.length).length sampleRecords
      ∧ ∀ k off, (k, off) ∈ entries →
          ∃ rec, readRecordAtOffset (some (convertToLengthIndicatedFile sampleRecords)) off
              = some rec
            ∧ rec.zipCode = k :=
  index_offset_read_correct sampleRecords (by decide) (by decide)

/-- Claim C3: on an index file rendered from entries with stream-safe keys,
the lookup returns the offset of the first entry in file order whose key
equals the requested one, and the -1 NotFound sentinel when none matches. -/
theorem searchPrimaryKey_first_match (entries : List (String × Nat)) (zip : String)
    (hkeys : keysOk entries) :
    searchPrimaryKey (some (renderIndex entries)) zip
      = match firstMatch entries zip with
        | some off => (off : Int)
        | none => -1 := by
  simp only [searchPrimaryKey]
  have hlen : entries.length < (renderIndex entries).length + 1 :=
    Nat.lt_succ_of_le (renderIndex_length_ge entries hkeys)
  have hloop := searchLoop_render entries ((renderIndex entries).length + 1) [] zip hlen
    (by simp) hkeys
  rw [List.nil_append] at hloop
  rw [hloop]
  cases firstMatch entries zip <;> simp

/-- Claim C3, witness: with a duplicate key the earliest entry wins, at the
fixture index. -/
theorem searchPrimaryKey_first_match_witness :
    searchPrimaryKey (some (renderIndex sampleEntries)) "00002" = 53 :=
  (searchPrimaryKey_first_match sampleEntries "00002" (by decide)).trans (by decide)

/-- Claim C4: the built index has exactly one line per frame, as many as
the declared record count, with no decode-validity requirement on the
frame payloads. -/
theorem index_completeness (recs : List ZipCodeRecord) (hcnt : recs.length < 2 ^ 32) :
    ∃ entries, createPrimaryKeyIndex (some (convertToLengthIndicatedFile recs)) = some entries
      ∧ entries.length = recs.length := by
  have hparse := parseHeader_convert recs hcnt
  refine ⟨buildIndexFrames recs.length
      ((convertToLengthIndicatedFile recs).length - (framesBytes recs).length)
      (framesBytes recs), ?_, ?_⟩
  · simp only [createPrimaryKeyIndex, hparse]
  · exact buildIndexFrames_length recs.length _ _

/-- Claim C4, witness: at a store containing a record whose payload does
not decode, the index still has one line per frame. -/
theorem index_completeness_witness :
    ∃ entries, createPrimaryKeyIndex (some (convertToLengthIndicatedFile mixedRecords))
        = some entries
      ∧ entries.length = mixedRecords.length :=
  index_completeness mixedRecords (by decide)

/-- Claim C5: per-path numeric decode policy.  On the CSV ingest path an
empty latitude or longitude field defaults to numeric zero and the record
is kept; on the framed-store decode path (shared by bulk load and lookup)
a latitude or longitude field that stod rejects, the empty field included,
drops the whole record. -/
theorem latlng_decode_policy (z p st cty : String) (latF lngF : List Char)
    (hz : ',' ∉ z.data) (hp : ',' ∉ p.data) (hst : ',' ∉ st.data) (hcty : ',' ∉ cty.data)
    (hlatc : ',' ∉ latF) (hlngc : ',' ∉ lngF) :
    (latF = [] → ∀ lo,
      (if lngF.isEmpty then some (⟨0, 0⟩ : DoubleVal) else stodChars lngF) = some lo →
      decodeCSVLineChars (mkLineChars z p st cty latF lngF)
        = some ⟨z, p, st, cty, ⟨0, 0⟩, lo⟩)
    ∧ (lngF = [] → ∀ la,
      (if latF.isEmpty then some (⟨0, 0⟩ : DoubleVal) else stodChars latF) = some la →
      decodeCSVLineChars (mkLineChars z p st cty latF lngF)
        = some ⟨z, p, st, cty, la, ⟨0, 0⟩⟩)
    ∧ (stodChars latF = none → decodeRecordChars (mkLineChars z p st cty latF lngF) = none)
    ∧ (stodChars lngF = none → decodeRecordChars (mkLineChars z p st cty latF lngF) = none) := by
  have hsplit := splitComma_mkLineChars z p st cty latF lngF hz hp hst hcty hlatc hlngc
  refine ⟨?_, ?_, ?_, ?_⟩
  · intro hlat lo hlo
    subst hlat
    simp only [decodeCSVLineChars, hsplit, fieldAt, List.getD_cons_zero, List.getD_cons_succ,
      List.isEmpty_nil, if_true, hlo, stringMk_data]
  · intro hlng la hla
    subst hlng
    simp only [decodeCSVLineChars, hsplit, fieldAt, List.getD_cons_zero, List.getD_cons_succ,
      List.isEmpty_nil, if_true, hla, stringMk_data]
  · intro hnone
    simp only [decodeRecordChars, hsplit, fieldAt, List.getD_cons_zero, List.getD_cons_succ,
      hnone]
  · intro hnone
    simp only [decodeRecordChars, hsplit, fieldAt, List.getD_cons_zero, List.getD_cons_succ,
      hnone]
    cases stodChars latF <;> rfl

/-- Claim C5, witness: the same line keeps the record with latitude zero on
the CSV path and drops it on the store path. -/
theorem latlng_decode_policy_witness :
    decodeCSVLineChars (mkLineChars "00001" "A" "NY" "X" [] "2.5".data)
        = some ⟨"00001", "A", "NY", "X", ⟨0, 0⟩, ⟨25, -1⟩⟩
      ∧ decodeRecordChars (mkLineChars "00001" "A" "NY" "X" [] "2.5".data) = none := by
  have h := latlng_decode_policy "00001" "A" "NY" "X" [] "2.5".data
    (by decide) (by decide) (by decide) (by decide) (by decide) (by decide)
  exact ⟨h.1 rfl ⟨25, -1⟩ (by decide), h.2.2.1 (by decide)⟩

/-- Claim C6, counterexample: an unopenable index file and an index with no
matching line both yield the -1 sentinel from searchPrimaryKey and the same
observable outcome from searchZipCode, so no IOError distinct from NotFound
reaches the caller. -/
theorem ioerror_not_distinct_counterexample :
    searchPrimaryKey none "00001" = -1
      ∧ searchPrimaryKey (some (renderIndex [("99999", 33)])) "00001" = -1
      ∧ searchZipCode none (some (convertToLengthIndicatedFile sampleRecords)) "00001"
          = searchZipCode (some (renderIndex [("99999", 33)]))
              (some (convertToLengthIndicatedFile sampleRecords)) "00001" := by
  refine ⟨rfl, by decide, by decide⟩

/-- Claim C6, amended: when the index file cannot be opened,
searchPrimaryKey prints an error and returns the same -1 sentinel used for
a missing key, and searchZipCode consequently reports not-found; no
distinct IOError value is surfaced to the caller. -/
theorem open_failure_returns_notfound_sentinel (zipCode : String)
    (dataFile : Option (List Nat)) :
    searchPrimaryKey none zipCode = -1 ∧ searchZipCode none dataFile zipCode = none := by
  constructor
  · rfl
  · simp [searchZipCode, searchPrimaryKey]

/-- Claim C7: the persisted header-size value equals the byte length of
the emitted preamble, the writer stores exactly that value, and the reader
parses the header sequentially: whatever value sits in the stored
header-size field, the remainder handed to the frame loop is the same. -/
theorem header_size_field_correct_and_unused (n storedHS : Nat) (tail : List Nat)
    (hhs : storedHS < 2 ^ 32) (hn : n < 2 ^ 32) :
    headerSizeValue = (writeHeaderBytes n).length
    ∧ writeHeaderBytes n = headerBytesWith headerSizeValue n
    ∧ parseHeader (headerBytesWith storedHS n ++ tail)
        = some (strBytes fileTypeTag, formatVersion, storedHS, n, tail) :=
  ⟨(writeHeaderBytes_length n).symm, rfl, parseHeader_headerBytesWith _ _ _ hhs hn⟩

/-- Claim C7, witness: a header whose stored size field is the wrong value
999 still parses with the frames located right after the preamble. -/
theorem header_size_field_witness :
    headerSizeValue = (writeHeaderBytes 2).length
    ∧ writeHeaderBytes 2 = headerBytesWith headerSizeValue 2
    ∧ parseHeader (headerBytesWith 999 2 ++ [7, 7])
        = some (strBytes fileTypeTag, formatVersion, 999, 2, [7, 7]) :=
  header_size_field_correct_and_unused 2 999 [7, 7] (by decide) (by decide)

/-- Claim C8: the writer emits the header with the record count equal to
the number of records, followed by exactly that many frames in input
order, the i-th being the 32-bit byte length of the i-th encoding followed
by exactly those bytes. -/
theorem writer_layout_correct (recs : List ZipCodeRecord) (hcnt : recs.length < 2 ^ 32)
    (hlen : ∀ r ∈ recs, encLen r < 2 ^ 32) :
    convertToLengthIndicatedFile recs = writeHeaderBytes recs.length ++ framesBytes recs
    ∧ parseHeader (convertToLengthIndicatedFile recs)
        = some (strBytes fileTypeTag, formatVersion, headerSizeValue, recs.length,
            framesBytes recs)
    ∧ parseFrames recs.length (framesBytes recs)
        = some (recs.map (fun r => (encLen r, strBytes (encodeRecord r))), []) := by
  refine ⟨convert_eq recs, parseHeader_convert recs hcnt, ?_⟩
  have hp := parseFrames_frames recs [] hlen
  simpa using hp

/-- Claim C8, witness: writer layout at the three-record fixture. -/
theorem writer_layout_correct_witness :
    convertToLengthIndicatedFile sampleRecords
        = writeHeaderBytes sampleRecords.length ++ framesBytes sampleRecords
    ∧ parseHeader (convertToLengthIndicatedFile sampleRecords)
        = some (strBytes fileTypeTag, formatVersion, headerSizeValue, sampleRecords.length,
            framesBytes sampleRecords)
    ∧ parseFrames sampleRecords.length (framesBytes sampleRecords)
        = some (sampleRecords.map (fun r => (encLen r, strBytes (encodeRecord r))), []) :=
  writer_layout_correct sampleRecords (by decide) (by decide)

/-- Claim C9: decode-failure asymmetry.  Bulk load over a store holding a
non-decodable frame still succeeds, returning fewer records than the
declared count, while the positioned single-record read at that frame
offset fails with none instead of skipping. -/
theorem decode_failure_asymmetry (recs : List ZipCodeRecord) (i : Nat) (hi : i < recs.length)
    (hcnt : recs.length < 2 ^ 32) (hlen : ∀ r ∈ recs, encLen r < 2 ^ 32)
    (hbad : decodeRecordChars (encodeRecord (recs.get ⟨i, hi⟩)).data = none) :
    (∃ out, loadFromLengthIndicatedFile [] (some (convertToLengthIndicatedFile recs)) = some out
      ∧ out.length < recs.length)
    ∧ readRecordAtOffset (some (convertToLengthIndicatedFile recs))
        ((frameOffsets (writeHeaderBytes recs.length).length recs).getD i 0) = none := by
  constructor
  · refine ⟨recs.filterMap (fun r => decodeRecordChars (encodeRecord r).data), ?_, ?_⟩
    · simp only [loadFromLengthIndicatedFile, parseHeader_convert recs hcnt]
      have hl := loadFrames_frames recs [] [] hlen
      simp only [List.append_nil, List.nil_append] at hl
      exact congrArg some hl
    · exact filterMap_length_lt _ recs i hi hbad
  · rw [convert_eq recs]
    have hsh : writeHeaderBytes recs.length ++ framesBytes recs
        = writeHeaderBytes recs.length ++ (framesBytes recs ++ []) := by simp
    rw [hsh, readRecordAtOffset_frame recs i hi _ [] hlen]
    exact hbad

/-- Claim C9, witness: the mixed fixture store loads two of three records
while the positioned read at the middle frame fails. -/
theorem decode_failure_asymmetry_witness :
    (∃ out, loadFromLengthIndicatedFile []
        (some (convertToLengthIndicatedFile mixedRecords)) = some out
      ∧ out.length < mixedRecords.length)
    ∧ readRecordAtOffset (some (convertToLengthIndicatedFile mixedRecords))
        ((frameOffsets (writeHeaderBytes mixedRecords.length).length mixedRecords).getD 1 0)
        = none :=
  decode_failure_asymmetry mixedRecords 1 (by decide) (by decide) (by decide) (by decide)

/-- Claim C10: neither bulk load clears the record container; each returns
the records already held followed by exactly the newly decoded ones. -/
theorem loads_append_without_clearing (records : List ZipCodeRecord) (lines : List String)
    (file : Option (List Nat)) :
    loadFromCSV records lines = records ++ loadFromCSV [] lines
    ∧ loadFromLengthIndicatedFile records file
        = (loadFromLengthIndicatedFile [] file).map (fun out => records ++ out) := by
  constructor
  · cases lines with
    | nil => simp [loadFromCSV]
    | cons hd body =>
      simp only [loadFromCSV]
      exact foldl_push_acc body records
  · cases file with
    | none => rfl
    | some bs =>
      simp only [loadFromLengthIndicatedFile]
      cases hp : parseHeader bs with
      | none => simp
      | some v =>
        obtain ⟨tg, ver, hsz, cnt, rest⟩ := v
        simp [loadFrames_acc cnt records rest]
